import Mathlib

/-!
Verification of the configor repository's configuration resolver and
struct-tag binder against its specification.

The development shallowly embeds the two components of the repository:

* the Resolver (`getConfigurationFiles`, `getFilenameWithENVPrefix` in
  configor.go), modelled over an abstract filesystem `String → Bool`
  giving the "exists and is a regular file" check of `os.Stat`;
* the Binder (`processTags` and its helpers `toScreamingSnakeCase` and
  the anonymous-aware qualified-name extension), modelled over a deep
  embedding of Go values and per-field struct-tag metadata; and
* the JSON entry `unmarshalJSON`, parameterised by the external
  `encoding/json` decoder.

External collaborators (the YAML/JSON parsers, the filesystem and the
process environment) are modelled as explicit parameters or as small
executable stand-ins, documented at their definitions.
-/

/-! ## Path manipulation (Go `path.Ext`, `strings.TrimSuffix`) -/

/-- Helper for `pathExt`: runs over the reversed character list of a path
and returns the reversed extension (everything from the last dot of the
last slash-separated element, inclusive), or `[]` when there is none.
Mirrors the scan of Go's `path.Ext`, which walks backwards until a `/`
and returns the suffix starting at the first `.` found. -/
def extTake : List Char → List Char
  | [] => []
  | c :: rest =>
    if c = '/' then []
    else if c = '.' then [c]
    else
      match extTake rest with
      | [] => []
      | l => c :: l

/-- Go `path.Ext`: the file name extension, the suffix beginning at the
final dot in the final slash-separated element, or `""` if there is none. -/
def pathExt (p : String) : String :=
  ⟨(extTake p.data.reverse).reverse⟩

/-- Go `strings.TrimSuffix s suff`: removes `suff` from the end of `s`
when it is a suffix, and returns `s` unchanged otherwise. -/
def trimSuffix (s suff : String) : String :=
  if suff.data.isSuffixOf s.data then ⟨s.data.take (s.data.length - suff.data.length)⟩ else s

/-! ## Resolver (configor.go) -/

/-- The environment-qualified variant of a path computed by
`getFilenameWithENVPrefix` in configor.go: `.env` is inserted
immediately before the extension, or appended when the path has no
extension (`fmt.Sprintf("%v.%v", file, env)` /
`fmt.Sprintf("%v.%v%v", strings.TrimSuffix(file, extname), env, extname)`). -/
def envFileName (file env : String) : String :=
  let extname := pathExt file
  if extname = "" then file ++ "." ++ env
  else trimSuffix file extname ++ "." ++ env ++ extname

/-- Go `getFilenameWithENVPrefix(file, env)` over an abstract filesystem
`fsReg` (the `os.Stat` succeeds-and-regular-file check): returns the
environment variant when it exists as a regular file. The Go version
returns an error value in the other case; the model uses `none`. -/
def getFilenameWithENVPrefix (fsReg : String → Bool) (file env : String) : Option String :=
  let envFile := envFileName file env
  if fsReg envFile then some envFile else none

/-- The entries contributed by one candidate path in the loop body of
`getConfigurationFiles` in configor.go: the literal path when it is a
regular file, then the environment variant when it exists, and — only
when neither was found (`!foundFile`) — the `.example` variant when it
exists. -/
def candidateContribution (fsReg : String → Bool) (env file : String) : List String :=
  let r1 : List String := if fsReg file then [file] else []
  let found1 : Bool := fsReg file
  let step2 : List String × Bool :=
    match getFilenameWithENVPrefix fsReg file env with
    | some envFile => (r1 ++ [envFile], true)
    | none => (r1, found1)
  if step2.2 then step2.1
  else
    match getFilenameWithENVPrefix fsReg file "example" with
    | some exFile => step2.1 ++ [exFile]
    | none => step2.1

/-- Go `(*Configor).getConfigurationFiles`: walks the candidate list in
reverse input order (`for i := len(files) - 1; i >= 0; i--`), appending
each candidate's contribution; the recursion below appends the
contributions of all later-listed candidates before the head's. -/
def getConfigurationFiles (fsReg : String → Bool) (env : String) : List String → List String
  | [] => []
  | file :: rest => getConfigurationFiles fsReg env rest ++ candidateContribution fsReg env file

/-! ## SCREAMING_SNAKE_CASE transform (`toScreamingSnakeCase`) -/

/-- Whether a character is in the regex class `[A-Z]`. -/
def isUpperAZ (c : Char) : Bool := 'A' ≤ c && c ≤ 'Z'

/-- Whether a character is in the regex class `[a-z]`. -/
def isLowerAZ (c : Char) : Bool := 'a' ≤ c && c ≤ 'z'

/-- Whether a character is in the regex class `[a-z0-9]`. -/
def isLowerDigit (c : Char) : Bool := isLowerAZ c || ('0' ≤ c && c ≤ '9')

/-- `matchFirstCap.ReplaceAllString(input, "${1}_${2}")` for the regex
`([A-Z])([A-Z][a-z])`: successive non-overlapping leftmost matches of an
upper-case letter followed by an upper-then-lower pair get an underscore
inserted after the first letter; scanning resumes after each match. -/
def matchFirstCapRepl : List Char → List Char
  | c0 :: c1 :: c2 :: rest =>
    if isUpperAZ c0 && isUpperAZ c1 && isLowerAZ c2 then
      c0 :: '_' :: c1 :: c2 :: matchFirstCapRepl rest
    else c0 :: matchFirstCapRepl (c1 :: c2 :: rest)
  | l => l

/-- `matchAllCap.ReplaceAllString(output, "${1}_${2}")` for the regex
`([a-z0-9])([A-Z])`: an underscore is inserted between a lower-case
letter or digit and a following upper-case letter; scanning resumes
after each two-character match. -/
def matchAllCapRepl : List Char → List Char
  | c0 :: c1 :: rest =>
    if isLowerDigit c0 && isUpperAZ c1 then
      c0 :: '_' :: c1 :: matchAllCapRepl rest
    else c0 :: matchAllCapRepl (c1 :: rest)
  | l => l

/-- Go `toScreamingSnakeCase`: the two regex replacements, then
`strings.ReplaceAll(output, "-", "_")`, then `strings.ToUpper` (the
inputs here are ASCII, where `Char.toUpper` agrees with Go). -/
def toScreamingSnakeCase (input : String) : String :=
  let output := matchFirstCapRepl input.data
  let output := matchAllCapRepl output
  let output := output.map (fun c => if c = '-' then '_' else c)
  ⟨output.map Char.toUpper⟩


/-! ## Binder data model

The Binder (`processTags` in the second source file) walks a Go structure
through reflection. The embedding represents the reflective view of a Go
value: scalar fields (string- and unsigned-integer-typed, the kinds used
throughout the repository's README examples), nested structs, slices and
pointers. Struct-tag metadata is carried alongside each field. -/

/-- A scalar (primitive) Go value: a string or an unsigned integer. -/
inductive PrimVal where
  | vstr (s : String)
  | vnat (n : Nat)
deriving DecidableEq

/-- The reflective metadata of one struct field: its name, the four
struct tags read by `processTags` (`env`, `default`, `required`,
`anonymous`; Go's `Tag.Get` yields `""` for an absent tag), whether the
field is embedded (`fieldStruct.Anonymous`), and the two reflection
capabilities `CanAddr`/`CanInterface` checked at the top of the loop. -/
structure FieldMeta where
  name : String
  envTag : String
  defaultTag : String
  requiredTag : String
  anonymousTag : String
  goAnonymous : Bool
  canAddr : Bool
  canInterface : Bool
deriving DecidableEq

mutual
/-- A Go value as seen by `processTags` through reflection. -/
inductive GoValue where
  | prim (p : PrimVal)
  | strukt (fs : GoFields)
  | slice (es : GoValues)
  | ptr (r : GoRef)

/-- The field list of a struct value: metadata paired with the value. -/
inductive GoFields where
  | nil
  | cons (m : FieldMeta) (v : GoValue) (rest : GoFields)

/-- The element list of a slice value. -/
inductive GoValues where
  | nil
  | cons (v : GoValue) (rest : GoValues)

/-- A pointer: nil, or a reference to a value. -/
inductive GoRef where
  | null
  | ref (v : GoValue)
end

/-- Whether a scalar equals its type's zero value. -/
def primZero : PrimVal → Bool
  | .vstr s => s == ""
  | .vnat n => n == 0

mutual
/-- The blankness check
`reflect.DeepEqual(field.Interface(), reflect.Zero(field.Type()).Interface())`:
a scalar is blank when it is the zero value of its type, a struct when
all its fields are blank, a slice when it is empty (the model conflates
Go's nil slice with the empty slice), a pointer when it is nil. -/
def isBlank : GoValue → Bool
  | .prim p => primZero p
  | .strukt fs => blankFields fs
  | .slice .nil => true
  | .slice _ => false
  | .ptr .null => true
  | .ptr _ => false

/-- All fields of a struct are blank. -/
def blankFields : GoFields → Bool
  | .nil => true
  | .cons _ v rest => isBlank v && blankFields rest
end

/-- Decimal digit value of a character, for the scalar parser model. -/
def digitVal (c : Char) : Option Nat :=
  if '0' ≤ c ∧ c ≤ '9' then some (c.toNat - '0'.toNat) else none

/-- Accumulates decimal digits; fails on any non-digit character. -/
def natCore : List Char → Nat → Option Nat
  | [], acc => some acc
  | c :: rest, acc =>
    match digitVal c with
    | some d => natCore rest (acc * 10 + d)
    | none => none

/-- Parses a non-empty all-digit string as a natural number. -/
def parseNat (s : String) : Option Nat :=
  match s.data with
  | [] => none
  | l => natCore l 0

/-- Models the external scalar-literal parser
(`yaml.Unmarshal([]byte(value), field.Addr().Interface())`, the
"structural literal parser" of the specification) applied to a scalar
target: a string-typed target accepts any literal as itself, an
unsigned-integer target accepts exactly decimal numerals. The target's
type is the type of the scalar currently held. -/
def parsePrimAs : PrimVal → String → Option PrimVal
  | .vstr _, s => some (.vstr s)
  | .vnat _, s => (parseNat s).map .vnat

/-- The literal parser applied to a field value: scalar targets parse as
`parsePrimAs`; parsing a literal into a non-scalar target (struct,
slice, pointer) is modelled as a parse failure, the conservative
rendering of the external YAML parser on the literals that appear in
this development. -/
def parseInto : GoValue → String → Option PrimVal
  | .prim p, s => parsePrimAs p s
  | _, _ => none

/-- The process environment: `os.Getenv`, which returns `""` for an
unset variable. -/
abbrev EnvState := String → String

/-- The candidate environment-variable names computed for a field in
`processTags`: the explicit `env` tag alone when present; otherwise the
qualified name `strings.Join(append(prefixes, fieldStruct.Name), "_")`
followed by its `toScreamingSnakeCase` transform. -/
def envNamesFor (m : FieldMeta) (pres : List String) : List String :=
  if m.envTag == "" then
    [String.intercalate "_" (pres ++ [m.name]),
     toScreamingSnakeCase (String.intercalate "_" (pres ++ [m.name]))]
  else [m.envTag]

/-- The `// Load From Shell ENV` loop of `processTags`: candidates are
scanned in order; at the first name whose environment value is non-empty
the value is parsed into the field (an error aborts the pass) and the
loop stops. `none` means no candidate had a non-empty value and the
field is untouched. -/
def envStep (env : EnvState) (names : List String) (v : GoValue) : Except String (Option PrimVal) :=
  match names with
  | [] => .ok none
  | n :: rest =>
    if env n ≠ "" then
      match parseInto v (env n) with
      | some p => .ok (some p)
      | none => .error ("cannot unmarshal env value " ++ env n)
    else envStep env rest v

/-- The field value after the environment step: replaced by the parsed
scalar when a candidate matched, untouched otherwise. -/
def applyEnvResult : Option PrimVal → GoValue → GoValue
  | some p, _ => .prim p
  | none, v => v

/-- The default/required step of `processTags`: when the field is blank,
a non-empty `default` tag is parsed into the field (an error aborts);
with no `default` tag, a `required:"true"` tag aborts with the
plain-field-name error `errors.New(fieldStruct.Name + " is required, but blank")`. -/
def blankDefault (m : FieldMeta) (v : GoValue) : Except String (Option PrimVal) :=
  if isBlank v then
    if m.defaultTag ≠ "" then
      match parseInto v m.defaultTag with
      | some p => .ok (some p)
      | none => .error ("cannot unmarshal default value " ++ m.defaultTag)
    else if m.requiredTag == "true" then
      .error (m.name ++ " is required, but blank")
    else .ok none
  else .ok none

/-- Go's `prefix(prefixes, &fieldStruct)`: the qualified-name segments
passed to a recursive call; an embedded field tagged `anonymous:"true"`
contributes no segment of its own. -/
def childPre (pres : List String) (m : FieldMeta) : List String :=
  if m.goAnonymous && m.anonymousTag == "true" then pres
  else pres ++ [m.name]

/-- `reflect.Indirect` on a slice element: dereferences exactly one
pointer level; a nil pointer yields the invalid value (`none`). -/
def indirect1 : GoValue → Option GoValue
  | .ptr .null => none
  | .ptr (.ref v) => some v
  | v => some v

/-- The `reflect.Kind` name of a value, for the
`"expected struct but got %v"` error of `processTags`. -/
def kindName : GoValue → String
  | .prim (.vstr _) => "string"
  | .prim (.vnat _) => "uint"
  | .strukt _ => "struct"
  | .slice _ => "slice"
  | .ptr .null => "invalid"
  | .ptr _ => "ptr"

mutual
/-- Go `(*Configor).processTags(config, prefixes...)`: dereferences the
target through pointers (`for configValue.Kind() == reflect.Ptr`), then
walks the fields of the struct; any other kind (including the invalid
value behind a nil pointer) is the `"expected struct but got ..."`
error. Mutation-in-place is rendered by returning the updated value. -/
def processTags (env : EnvState) (pres : List String) : GoValue → Except String GoValue
  | .ptr (.ref x) =>
    match processTags env pres x with
    | .ok y => .ok (.ptr (.ref y))
    | .error e => .error e
  | .strukt fs =>
    match processFields env pres fs with
    | .ok fs' => .ok (.strukt fs')
    | .error e => .error e
  | v => .error ("expected struct but got " ++ kindName v)

/-- The `for i := 0; i < configType.NumField(); i++` loop of
`processTags`: fields are processed left to right; the first error
aborts the whole pass. -/
def processFields (env : EnvState) (pres : List String) : GoFields → Except String GoFields
  | .nil => .ok .nil
  | .cons m v rest =>
    match processField env pres m v with
    | .error e => .error e
    | .ok w =>
      match processFields env pres rest with
      | .error e => .error e
      | .ok rest' => .ok (.cons m w rest')

/-- The body of the field loop of `processTags` for one field: skip
fields that are not addressable or not interfaceable; apply the
environment step, then the default/required step, then recurse into the
(pointer-dereferenced) field when it is a struct, and into each
struct-kinded element when it is a slice. When one of the first two
steps assigned a scalar the field holds a scalar, on which the
dereference loop and the struct/slice recursion of the source do
nothing, so the match below runs the recursion on the original value
exactly when no assignment happened. -/
def processField (env : EnvState) (pres : List String) (m : FieldMeta) (v : GoValue) :
    Except String GoValue :=
  if !(m.canAddr && m.canInterface) then .ok v
  else
    match envStep env (envNamesFor m pres) v with
    | .error e => .error e
    | .ok r =>
      match blankDefault m (applyEnvResult r v) with
      | .error e => .error e
      | .ok (some p) => .ok (.prim p)
      | .ok none =>
        match r with
        | some p => .ok (.prim p)
        | none =>
          match v with
          | .ptr (.ref x) =>
            match derefRecurse env (childPre pres m) x with
            | .ok y => .ok (.ptr (.ref y))
            | .error e => .error e
          | .strukt fs =>
            match processFields env (childPre pres m) fs with
            | .ok fs' => .ok (.strukt fs')
            | .error e => .error e
          | .slice es =>
            match sliceElems env (childPre pres m) 0 es with
            | .ok es' => .ok (.slice es')
            | .error e => .error e
          | other => .ok other

/-- The `for field.Kind() == reflect.Ptr { field = field.Elem() }` loop
followed by the struct and slice recursion of `processTags`: pointers
are dereferenced (a nil pointer ends the loop at the invalid value, so
nothing is recursed into), a struct has its fields processed, a slice
its struct-kinded elements. -/
def derefRecurse (env : EnvState) (pres : List String) : GoValue → Except String GoValue
  | .ptr (.ref x) =>
    match derefRecurse env pres x with
    | .ok y => .ok (.ptr (.ref y))
    | .error e => .error e
  | .strukt fs =>
    match processFields env pres fs with
    | .ok fs' => .ok (.strukt fs')
    | .error e => .error e
  | .slice es =>
    match sliceElems env pres 0 es with
    | .ok es' => .ok (.slice es')
    | .error e => .error e
  | v => .ok v

/-- The slice loop of `processTags`: element `i` is recursed into (with
the element index appended to the qualified name, `fmt.Sprint(i)`)
exactly when `reflect.Indirect(field.Index(i))` is a struct. -/
def sliceElems (env : EnvState) (pres : List String) (i : Nat) : GoValues → Except String GoValues
  | .nil => .ok .nil
  | .cons e rest =>
    match
      (match indirect1 e with
       | some (.strukt _) => processTags env (pres ++ [toString i]) e
       | _ => .ok e) with
    | .error err => .error err
    | .ok e' =>
      match sliceElems env pres (i + 1) rest with
      | .error err => .error err
      | .ok rest' => .ok (.cons e' rest')
end

/-! ## Recursive field predicates used by the claims -/

mutual
/-- Every addressable-and-interfaceable field, at every depth, declares a
`default` literal that parses into its type (a "satisfied default"); in
particular no processed field is required without a default. -/
def safeFields : GoFields → Bool
  | .nil => true
  | .cons m v rest =>
    (if m.canAddr && m.canInterface then
      (m.defaultTag ≠ "" : Bool) && (parseInto v m.defaultTag).isSome && safeVal v
     else true) && safeFields rest

/-- `safeFields` through the value constructors the Binder recurses into. -/
def safeVal : GoValue → Bool
  | .strukt fs => safeFields fs
  | .slice es => safeValues es
  | .ptr (.ref v) => safeVal v
  | _ => true

/-- `safeVal` over slice elements. -/
def safeValues : GoValues → Bool
  | .nil => true
  | .cons e rest => safeVal e && safeValues rest
end

mutual
/-- The environment state is well formed for a field list under a given
qualified-name context: for every processed field the environment step
succeeds (the first non-empty candidate value, if any, parses into the
field's type), recursively with the qualified names the Binder uses. -/
def envOkFields (env : EnvState) (pres : List String) : GoFields → Bool
  | .nil => true
  | .cons m v rest =>
    (if m.canAddr && m.canInterface then
      (envStep env (envNamesFor m pres) v).isOk && envOkVal env (childPre pres m) v
     else true) && envOkFields env pres rest

/-- `envOkFields` through the value constructors the Binder recurses into. -/
def envOkVal (env : EnvState) (pres : List String) : GoValue → Bool
  | .strukt fs => envOkFields env pres fs
  | .slice es => envOkValues env pres 0 es
  | .ptr (.ref v) => envOkVal env pres v
  | _ => true

/-- `envOkVal` over slice elements, with the element index appended to
the qualified name as the Binder does. -/
def envOkValues (env : EnvState) (pres : List String) (i : Nat) : GoValues → Bool
  | .nil => true
  | .cons e rest => envOkVal env (pres ++ [toString i]) e && envOkValues env pres (i + 1) rest
end

mutual
/-- No field of the structure, at any depth (including fields of slice
elements and of pointed-to structs), holds its type's zero/empty value. -/
def noZeroFields : GoFields → Bool
  | .nil => true
  | .cons _ v rest => !isBlank v && noZeroVal v && noZeroFields rest

/-- `noZeroFields` through the value constructors the Binder recurses into. -/
def noZeroVal : GoValue → Bool
  | .strukt fs => noZeroFields fs
  | .slice es => noZeroValues es
  | .ptr (.ref v) => noZeroVal v
  | _ => true

/-- `noZeroVal` over slice elements. -/
def noZeroValues : GoValues → Bool
  | .nil => true
  | .cons e rest => noZeroVal e && noZeroValues rest
end

/-- The reflective shape of a value at the granularity the scalar
parser distinguishes: the scalar kind, struct, slice or pointer. -/
def shapeOf : GoValue → Nat
  | .prim (.vstr _) => 0
  | .prim (.vnat _) => 1
  | .strukt _ => 2
  | .slice _ => 3
  | .ptr _ => 4

/-- Concatenation of field lists, used to speak about a field's earlier
and later siblings. -/
def appendFields : GoFields → GoFields → GoFields
  | .nil, gs => gs
  | .cons m v rest, gs => .cons m v (appendFields rest gs)

/-! ## unmarshalJSON -/

/-- The outcome reported by the external `encoding/json` decoder:
no error (`none` below), end of file (`io.EOF`), or any other error. -/
inductive JsonDecodeErr where
  | eofErr
  | otherErr (msg : String)
deriving DecidableEq

/-- Rendering of a decoder error as the message `Load` would return. -/
def renderJsonErr : JsonDecodeErr → String
  | .eofErr => "EOF"
  | .otherErr msg => msg

/-- Go `unmarshalJSON(data, config, errorOnUnmatchedKeys)`: the external
`encoding/json` decoder is the parameter `decode`, receiving the
strictness flag (`DisallowUnknownFields`) and the target, and returning
the updated target together with an optional error. The source returns
the error unless it is nil or `io.EOF`
(`if err != nil && err != io.EOF { return err }; return nil`). -/
def unmarshalJSON {α : Type} (decode : Bool → α → α × Option JsonDecodeErr)
    (errorOnUnmatchedKeys : Bool) (config : α) : Except String α :=
  let r := decode errorOnUnmatchedKeys config
  match r.2 with
  | some e => if e = .eofErr then .ok r.1 else .error (renderJsonErr e)
  | none => .ok r.1

/-! ## Concrete structures used by witnesses and counterexamples -/

/-- Field metadata with no tags set, addressable and interfaceable. -/
def plainMeta (n : String) : FieldMeta :=
  { name := n, envTag := "", defaultTag := "", requiredTag := "",
    anonymousTag := "", goAnonymous := false, canAddr := true, canInterface := true }

/-- A `uint` field named `Port` tagged `default:"0" required:"true"`. -/
def portMeta : FieldMeta := { plainMeta "Port" with defaultTag := "0", requiredTag := "true" }

/-- A struct whose single field is `portMeta` holding the zero `uint`. -/
def portCfg : GoValue := .strukt (.cons portMeta (.prim (.vnat 0)) .nil)

/-- A string field named `Password` tagged `required:"true"`. -/
def passMeta : FieldMeta := { plainMeta "Password" with requiredTag := "true" }

/-- A `uint` field named `Port` tagged `default:"5"`. -/
def port5Meta : FieldMeta := { plainMeta "Port" with defaultTag := "5" }

/-- A struct whose single field is `port5Meta` holding the zero `uint`. -/
def port5Cfg : GoValue := .strukt (.cons port5Meta (.prim (.vnat 0)) .nil)

/-- An environment holding `PORT=abc` and nothing else. -/
def portAbcEnv : EnvState := fun n => if n = "PORT" then "abc" else ""

/-- A nested-struct field named `Inner` tagged with the malformed
default literal `default:"["`. -/
def innerMeta : FieldMeta := { plainMeta "Inner" with defaultTag := "[" }

/-- An environment holding `INNER_A=0` and nothing else. -/
def innerZeroEnv : EnvState := fun n => if n = "INNER_A" then "0" else ""

/-- A struct with one nested-struct field `Inner` (tagged with the
malformed default) whose field `A` holds the `uint` 5. -/
def innerCfg : GoValue :=
  .strukt (.cons innerMeta (.strukt (.cons (plainMeta "A") (.prim (.vnat 5)) .nil)) .nil)

/-- `innerCfg` after one Binder pass under `innerZeroEnv`: `A` was
overridden to 0, so the nested struct is now entirely blank. -/
def innerCfgAfter : GoValue :=
  .strukt (.cons innerMeta (.strukt (.cons (plainMeta "A") (.prim (.vnat 0)) .nil)) .nil)

/-- The embedded field `Details` tagged `anonymous:"true"` of the README example. -/
def detailsMeta : FieldMeta :=
  { plainMeta "Details" with anonymousTag := "true", goAnonymous := true }

/-- The field `Description` of the README's `Details` struct. -/
def descMeta : FieldMeta := plainMeta "Description"

/-- A field carrying an explicit `env:"DBPassword"` tag, from the README example. -/
def dbPasswordMeta : FieldMeta := { plainMeta "Password" with envTag := "DBPassword" }

/-- An unexported (not interfaceable) field, tagged `required:"true"`. -/
def unexportedMeta : FieldMeta :=
  { plainMeta "password" with requiredTag := "true", canInterface := false }

/-- A string field named `Name` tagged `default:"anon"`. -/
def nameMeta : FieldMeta := { plainMeta "Name" with defaultTag := "anon" }

/-- A struct with the single defaulted field `Name`, holding the blank string. -/
def nameCfg : GoValue := .strukt (.cons nameMeta (.prim (.vstr "")) .nil)

/-- An environment holding `NAME=iris` and nothing else. -/
def nameEnv : EnvState := fun n => if n = "NAME" then "iris" else ""

/-- A filesystem on which only `config.example.yml` is a regular file. -/
def exOnlyFs : String → Bool := fun s => s == "config.example.yml"

/-! ## Unfolding equations for the mutual Binder functions

The Binder functions are compiled by mutual structural recursion; the
following equations, all definitional, let the simplifier unfold them. -/

@[simp]
theorem processTags_ptr_ref (env : EnvState) (pres : List String) (x : GoValue) :
    processTags env pres (.ptr (.ref x)) =
      match processTags env pres x with
      | .ok y => .ok (.ptr (.ref y))
      | .error e => .error e := rfl

@[simp]
theorem processTags_strukt (env : EnvState) (pres : List String) (fs : GoFields) :
    processTags env pres (.strukt fs) =
      match processFields env pres fs with
      | .ok fs' => .ok (.strukt fs')
      | .error e => .error e := rfl

@[simp]
theorem processTags_prim (env : EnvState) (pres : List String) (p : PrimVal) :
    processTags env pres (.prim p) = .error ("expected struct but got " ++ kindName (.prim p)) := rfl

@[simp]
theorem processTags_slice (env : EnvState) (pres : List String) (es : GoValues) :
    processTags env pres (.slice es) = .error ("expected struct but got " ++ kindName (.slice es)) := rfl

@[simp]
theorem processTags_ptr_null (env : EnvState) (pres : List String) :
    processTags env pres (.ptr .null) = .error ("expected struct but got " ++ kindName (.ptr .null)) := rfl

@[simp]
theorem processFields_nil (env : EnvState) (pres : List String) :
    processFields env pres .nil = .ok .nil := rfl

@[simp]
theorem processFields_cons (env : EnvState) (pres : List String) (m : FieldMeta) (v : GoValue)
    (rest : GoFields) :
    processFields env pres (.cons m v rest) =
      match processField env pres m v with
      | .error e => .error e
      | .ok w =>
        match processFields env pres rest with
        | .error e => .error e
        | .ok rest' => .ok (.cons m w rest') := rfl

@[simp]
theorem derefRecurse_ptr_ref (env : EnvState) (pres : List String) (x : GoValue) :
    derefRecurse env pres (.ptr (.ref x)) =
      match derefRecurse env pres x with
      | .ok y => .ok (.ptr (.ref y))
      | .error e => .error e := rfl

@[simp]
theorem derefRecurse_ptr_null (env : EnvState) (pres : List String) :
    derefRecurse env pres (.ptr .null) = .ok (.ptr .null) := rfl

@[simp]
theorem derefRecurse_strukt (env : EnvState) (pres : List String) (fs : GoFields) :
    derefRecurse env pres (.strukt fs) =
      match processFields env pres fs with
      | .ok fs' => .ok (.strukt fs')
      | .error e => .error e := rfl

@[simp]
theorem derefRecurse_slice (env : EnvState) (pres : List String) (es : GoValues) :
    derefRecurse env pres (.slice es) =
      match sliceElems env pres 0 es with
      | .ok es' => .ok (.slice es')
      | .error e => .error e := rfl

@[simp]
theorem derefRecurse_prim (env : EnvState) (pres : List String) (p : PrimVal) :
    derefRecurse env pres (.prim p) = .ok (.prim p) := rfl

@[simp]
theorem sliceElems_nil (env : EnvState) (pres : List String) (i : Nat) :
    sliceElems env pres i .nil = .ok .nil := rfl

@[simp]
theorem sliceElems_cons (env : EnvState) (pres : List String) (i : Nat) (e : GoValue)
    (rest : GoValues) :
    sliceElems env pres i (.cons e rest) =
      match
        (match indirect1 e with
         | some (.strukt _) => processTags env (pres ++ [toString i]) e
         | _ => .ok e) with
      | .error err => .error err
      | .ok e' =>
        match sliceElems env pres (i + 1) rest with
        | .error err => .error err
        | .ok rest' => .ok (.cons e' rest') := rfl

/-- Unfolding of `processField`: the skip check, the environment step,
the default/required step, and — when neither step assigned — the
dereference-and-recurse step, which coincides with `derefRecurse`. -/
theorem processField_eq (env : EnvState) (pres : List String) (m : FieldMeta) (v : GoValue) :
    processField env pres m v =
      (if !(m.canAddr && m.canInterface) then .ok v
       else
        match envStep env (envNamesFor m pres) v with
        | .error e => .error e
        | .ok r =>
          match blankDefault m (applyEnvResult r v) with
          | .error e => .error e
          | .ok (some p) => .ok (.prim p)
          | .ok none =>
            match r with
            | some p => .ok (.prim p)
            | none => derefRecurse env (childPre pres m) v) := by
  cases v with
  | prim p => rfl
  | strukt fs => rfl
  | slice es => rfl
  | ptr r => cases r with
    | null => rfl
    | ref x => rfl

/-! ## Claim theorems -/

/-- C8: the `toScreamingSnakeCase` transform satisfies the three
concrete equations of the specification: `"DBName"` becomes `"DB_NAME"`,
`"APPName"` becomes `"APP_NAME"`, and `"already-kebab"` becomes
`"ALREADY_KEBAB"`. -/
theorem screaming_snake_case_eqs :
    toScreamingSnakeCase "DBName" = "DB_NAME" ∧
    toScreamingSnakeCase "APPName" = "APP_NAME" ∧
    toScreamingSnakeCase "already-kebab" = "ALREADY_KEBAB" :=
  ⟨rfl, rfl, rfl⟩

/-- C10: for every target type and every state of the external JSON
decoder in which decoding reports end of file with the target left
unchanged (as `encoding/json` does on a zero-byte input), `unmarshalJSON`
returns success with the unchanged target, for both values of the
strict unmatched-keys flag; end of file is never reported as an error. -/
theorem unmarshal_json_eof_ok {α : Type} (decode : Bool → α → α × Option JsonDecodeErr)
    (errorOnUnmatchedKeys : Bool) (config : α)
    (h : decode errorOnUnmatchedKeys config = (config, some .eofErr)) :
    unmarshalJSON decode errorOnUnmatchedKeys config = .ok config := by
  simp [unmarshalJSON, h]

/-- Witness for `unmarshal_json_eof_ok`: a decoder that reports end of
file on a `Nat` target, under both values of the strict flag. -/
theorem unmarshal_json_eof_ok_witness :
    unmarshalJSON (fun _ (c : Nat) => (c, some .eofErr)) true 7 = .ok 7 ∧
    unmarshalJSON (fun _ (c : Nat) => (c, some .eofErr)) false 7 = .ok 7 :=
  ⟨unmarshal_json_eof_ok _ true 7 rfl, unmarshal_json_eof_ok _ false 7 rfl⟩

/-- C9: a field that is not addressable or not interfaceable (in Go, an
unexported field) is skipped entirely by the Binder: for every
environment, every qualified-name context and every current value, the
field is left unchanged and no error is raised — so no environment
lookup, no default assignment, no required-field failure and no
recursion happens for it. -/
theorem inaccessible_field_skipped (env : EnvState) (pres : List String)
    (m : FieldMeta) (v : GoValue) (h : m.canAddr = false ∨ m.canInterface = false) :
    processField env pres m v = .ok v := by
  rw [processField_eq]
  rcases h with h | h <;> simp [h]

/-- Witness for `inaccessible_field_skipped`: the unexported field
`password`, although blank and tagged `required:"true"`, is left
unchanged without an error. -/
theorem inaccessible_field_skipped_witness :
    unexportedMeta.canInterface = false ∧
    unexportedMeta.requiredTag = "true" ∧
    isBlank (.prim (.vstr "")) = true ∧
    processField (fun _ => "") [] unexportedMeta (.prim (.vstr "")) = .ok (.prim (.vstr "")) :=
  ⟨rfl, rfl, rfl, inaccessible_field_skipped (fun _ => "") [] unexportedMeta _ (Or.inr rfl)⟩

/-- C4: the environment-variable candidates of a field are exactly its
explicit `env` tag when one is declared, and otherwise exactly the two
names — the qualified name joined with `_` as-is and its
`SCREAMING_SNAKE_CASE` transform, in that order; and the environment
step tries the candidates in list order, stopping at the first whose
environment value is non-empty (parsing that value into the field). -/
theorem env_candidate_names (m : FieldMeta) (pres : List String) :
    (m.envTag ≠ "" → envNamesFor m pres = [m.envTag]) ∧
    (m.envTag = "" →
      envNamesFor m pres =
        [String.intercalate "_" (pres ++ [m.name]),
         toScreamingSnakeCase (String.intercalate "_" (pres ++ [m.name]))]) ∧
    (∀ (env : EnvState) (v : GoValue) (names : List String),
      envStep env names v =
        match names.find? (fun n => env n ≠ "") with
        | none => .ok none
        | some n =>
          match parseInto v (env n) with
          | some p => .ok (some p)
          | none => .error ("cannot unmarshal env value " ++ env n)) := by
  refine ⟨fun h => by simp [envNamesFor, h], fun h => by simp [envNamesFor, h], ?_⟩
  intro env v names
  induction names with
  | nil => rfl
  | cons n rest ih =>
    by_cases h : env n = ""
    · simp [envStep, List.find?, h, ih]
    · simp [envStep, List.find?, h]

/-- Witness for `env_candidate_names`: the README's
`Password string required:"true" env:"DBPassword"` field uses exactly
the explicit name, and a plain field in the `DB` context uses the
qualified pair. -/
theorem env_candidate_names_witness :
    envNamesFor dbPasswordMeta ["DB"] = ["DBPassword"] ∧
    envNamesFor (plainMeta "Name") ["DB"] = ["DB_Name", "DB_NAME"] :=
  ⟨(env_candidate_names dbPasswordMeta ["DB"]).1 (by decide),
   (env_candidate_names (plainMeta "Name") ["DB"]).2.1 rfl⟩

/-- C6: an embedded field tagged `anonymous:"true"` leaves the
qualified-name context unchanged, so its own name contributes no
segment to the names of its children; concretely, the README's
`Description` field inside the embedded `Details` struct gets the
candidates `Description`/`DESCRIPTION` — not `DETAILS_DESCRIPTION`,
which it would get without the tag. -/
theorem anonymous_no_segment :
    (∀ (pres : List String) (m : FieldMeta),
      m.goAnonymous = true → m.anonymousTag = "true" → childPre pres m = pres) ∧
    envNamesFor descMeta (childPre [] detailsMeta) = ["Description", "DESCRIPTION"] ∧
    "DETAILS_DESCRIPTION" ∉ envNamesFor descMeta (childPre [] detailsMeta) ∧
    envNamesFor descMeta (childPre [] { detailsMeta with anonymousTag := "" }) =
      ["Details_Description", "DETAILS_DESCRIPTION"] := by
  refine ⟨fun pres m h1 h2 => by simp [childPre, h1, h2], rfl, by decide, rfl⟩

/-- Witness for `anonymous_no_segment`: the general clause applied to
the `Details` metadata under a non-empty context. -/
theorem anonymous_no_segment_witness :
    childPre ["App"] detailsMeta = ["App"] :=
  anonymous_no_segment.1 ["App"] detailsMeta rfl rfl

/-- C1: for every filesystem state, environment name and candidate
list, the resolution plan is the concatenation of the per-candidate
contributions taken in reverse input order; each candidate contributes
at most two entries; when both the base file and its environment
variant exist the candidate contributes exactly the pair (base,
environment variant) in that order (and when exactly one of them
exists, exactly that one); and splitting the candidate list shows that
the files of earlier-listed candidates always appear after — and are
therefore merged after, with higher precedence than — the files of
later-listed candidates. -/
theorem resolver_plan_reverse_order (fsReg : String → Bool) (env : String) (files : List String) :
    getConfigurationFiles fsReg env files =
      ((files.reverse).map (candidateContribution fsReg env)).flatten ∧
    (∀ f, (candidateContribution fsReg env f).length ≤ 2) ∧
    (∀ f, fsReg f = true → fsReg (envFileName f env) = true →
      candidateContribution fsReg env f = [f, envFileName f env]) ∧
    (∀ f, fsReg f = true → fsReg (envFileName f env) = false →
      candidateContribution fsReg env f = [f]) ∧
    (∀ f, fsReg f = false → fsReg (envFileName f env) = true →
      candidateContribution fsReg env f = [envFileName f env]) ∧
    (∀ xs ys, getConfigurationFiles fsReg env (xs ++ ys) =
      getConfigurationFiles fsReg env ys ++ getConfigurationFiles fsReg env xs) := by
  refine ⟨?_, ?_, ?_, ?_, ?_, ?_⟩
  · induction files with
    | nil => rfl
    | cons f rest ih => simp [getConfigurationFiles, ih]
  · intro f
    by_cases hb : fsReg f <;> by_cases he : fsReg (envFileName f env) <;>
      by_cases hx : fsReg (envFileName f "example") <;>
      simp [candidateContribution, getFilenameWithENVPrefix, hb, he, hx]
  · intro f hb he
    simp [candidateContribution, getFilenameWithENVPrefix, hb, he]
  · intro f hb he
    by_cases hx : fsReg (envFileName f "example") <;>
      simp [candidateContribution, getFilenameWithENVPrefix, hb, he, hx]
  · intro f hb he
    simp [candidateContribution, getFilenameWithENVPrefix, hb, he]
  · intro xs ys
    induction xs with
    | nil => simp [getConfigurationFiles]
    | cons x xs ih => simp [getConfigurationFiles, ih]

/-- Witness for `resolver_plan_reverse_order`: on a filesystem where
every path exists, a single candidate contributes its base file and
environment variant in that order. -/
theorem resolver_plan_reverse_order_witness :
    candidateContribution (fun _ => true) "test" "config.yml" = ["config.yml", "config.test.yml"] :=
  (resolver_plan_reverse_order (fun _ => true) "test" []).2.2.1 "config.yml" rfl rfl

/-- The extension scan consumes an initial segment of the reversed path. -/
theorem extTake_append (r : List Char) : ∃ rest, r = extTake r ++ rest := by
  induction r with
  | nil => exact ⟨[], rfl⟩
  | cons c rest ih =>
    by_cases hs : c = '/'
    · exact ⟨c :: rest, by simp [extTake, hs]⟩
    · by_cases hd : c = '.'
      · exact ⟨rest, by simp [extTake, hs, hd]⟩
      · obtain ⟨r', hr'⟩ := ih
        cases he : extTake rest with
        | nil => exact ⟨c :: rest, by simp [extTake, hs, hd, he]⟩
        | cons x xs =>
          refine ⟨r', ?_⟩
          rw [he] at hr'
          simp [extTake, hs, hd, he]
          exact hr'

/-- The extension computed by `pathExt` is a suffix of the path. -/
theorem pathExt_suffix (p : String) : ∃ stem : List Char, p.data = stem ++ (pathExt p).data := by
  obtain ⟨rest, hr⟩ := extTake_append p.data.reverse
  refine ⟨rest.reverse, ?_⟩
  have h2 := congrArg List.reverse hr
  simpa [pathExt] using h2

/-- Shape of the environment-qualified path: `.` and the environment
name are inserted between the stem and the extension of the path. -/
theorem envFileName_data (file env : String) :
    ∃ stem : List Char,
      file.data = stem ++ (pathExt file).data ∧
      (envFileName file env).data = stem ++ '.' :: (env.data ++ (pathExt file).data) := by
  obtain ⟨stem, hstem⟩ := pathExt_suffix file
  by_cases hx : pathExt file = ""
  · refine ⟨file.data, by simp [hx], ?_⟩
    simp [envFileName, hx, String.data_append]
  · refine ⟨stem, hstem, ?_⟩
    have hsuf : (pathExt file).data.isSuffixOf file.data :=
      List.isSuffixOf_iff_suffix.mpr ⟨stem, hstem.symm⟩
    have htrim : (trimSuffix file (pathExt file)).data = stem := by
      simp only [trimSuffix, hsuf, if_true]
      rw [hstem, List.length_append, Nat.add_sub_cancel, List.take_left]
    simp [envFileName, hx, String.data_append, htrim]

/-- The environment-qualified variant is one character plus the
environment name longer than the path itself. -/
theorem envFileName_length (file env : String) :
    (envFileName file env).data.length = file.data.length + 1 + env.data.length := by
  obtain ⟨stem, h1, h2⟩ := envFileName_data file env
  rw [h1, h2]
  simp
  omega

/-- No environment-qualified variant of a path equals the path itself. -/
theorem envFileName_ne_self (file env : String) : envFileName file env ≠ file := by
  intro h
  have h2 := congrArg (fun s : String => s.data.length) h
  simp only at h2
  rw [envFileName_length] at h2
  omega

/-- For a fixed path, the environment-qualified variant determines the
environment name. -/
theorem envFileName_inj (file e₁ e₂ : String) :
    envFileName file e₁ = envFileName file e₂ → e₁ = e₂ := by
  intro h
  obtain ⟨s₁, hs₁, hd₁⟩ := envFileName_data file e₁
  obtain ⟨s₂, hs₂, hd₂⟩ := envFileName_data file e₂
  have hstem : s₁ = s₂ := List.append_cancel_right (hs₁.symm.trans hs₂)
  have hdata : (envFileName file e₁).data = (envFileName file e₂).data := by rw [h]
  rw [hd₁, hd₂, hstem] at hdata
  have h3 := List.append_cancel_left hdata
  have h4 := List.append_cancel_right (List.cons_injective h3)
  cases e₁; cases e₂; simp_all

/-- C5 (amended: for environment names other than the literal string
`example`): a candidate's contribution to the resolution plan contains
the `.example` variant exactly when neither the literal path nor its
environment-qualified variant is a regular file while the `.example`
variant is one; and when none of the three variants exists the
candidate contributes nothing — which is not an error, the contribution
is simply empty. -/
theorem example_fallback_iff (fsReg : String → Bool) (env file : String)
    (henv : env ≠ "example") :
    (envFileName file "example" ∈ candidateContribution fsReg env file ↔
      (fsReg file = false ∧ fsReg (envFileName file env) = false ∧
       fsReg (envFileName file "example") = true)) ∧
    (fsReg file = false → fsReg (envFileName file env) = false →
      fsReg (envFileName file "example") = false →
      candidateContribution fsReg env file = []) := by
  have hne1 : envFileName file "example" ≠ file := envFileName_ne_self file "example"
  have hne2 : envFileName file "example" ≠ envFileName file env := by
    intro h
    exact henv (envFileName_inj file env "example" h.symm)
  constructor
  · by_cases hb : fsReg file <;> by_cases he : fsReg (envFileName file env) <;>
      by_cases hx : fsReg (envFileName file "example") <;>
      simp [candidateContribution, getFilenameWithENVPrefix, hb, he, hx, hne1, hne2]
  · intro hb he hx
    simp [candidateContribution, getFilenameWithENVPrefix, hb, he, hx]

/-- Counterexample to C5 as stated: with the environment name itself
equal to `example`, a filesystem holding only `config.example.yml`, and
the candidate `config.yml`, the `.example` variant is appended to the
plan (as the environment-qualified variant), although the
environment-qualified variant does exist — the claimed equivalence is
false at this input. -/
theorem example_fallback_env_example_cex :
    ¬ ((envFileName "config.yml" "example" ∈ candidateContribution exOnlyFs "example" "config.yml") ↔
      (exOnlyFs "config.yml" = false ∧
       exOnlyFs (envFileName "config.yml" "example") = false ∧
       exOnlyFs (envFileName "config.yml" "example") = true)) := by
  decide

/-- Witness for `example_fallback_iff`: under the environment name
`development`, the `.example` fallback is used exactly on the
filesystem holding only `config.example.yml`, and a candidate none of
whose variants exists contributes nothing. -/
theorem example_fallback_iff_witness :
    envFileName "config.yml" "example" ∈ candidateContribution exOnlyFs "development" "config.yml" ∧
    candidateContribution (fun _ => false) "development" "config.yml" = [] :=
  ⟨(example_fallback_iff exOnlyFs "development" "config.yml" (by decide)).1.mpr
     ⟨rfl, rfl, rfl⟩,
   (example_fallback_iff (fun _ => false) "development" "config.yml" (by decide)).2 rfl rfl rfl⟩

/-- When a block of fields processes without error and a following
block aborts with an error, processing the concatenation aborts with
that same error. -/
theorem processFields_append_error (env : EnvState) (pres : List String) (msg : String) :
    ∀ (fs1 fs1' fsB : GoFields), processFields env pres fs1 = .ok fs1' →
      processFields env pres fsB = .error msg →
      processFields env pres (appendFields fs1 fsB) = .error msg
  | .nil, _, fsB, _, hB => by simpa [appendFields] using hB
  | .cons m0 v0 rest, fs1', fsB, hsib, hB => by
    simp only [appendFields, processFields_cons]
    rw [processFields_cons] at hsib
    cases h0 : processField env pres m0 v0 with
    | error e => rw [h0] at hsib; exact absurd hsib (by simp)
    | ok w =>
      rw [h0] at hsib
      cases h1 : processFields env pres rest with
      | error e => rw [h1] at hsib; exact absurd hsib (by simp)
      | ok rest' => rw [processFields_append_error env pres msg rest rest' fsB h1 hB]

/-- Counterexample to C2 as stated: the `uint` field `Port` tagged
`default:"0" required:"true"`, with no environment value, still holds
its zero value after the environment step and the default step (the
default parses to the zero value), yet the Binder succeeds — because
the source checks `required` only in the branch where no `default` tag
is present. -/
theorem required_blank_default_zero_cex :
    processTags (fun _ => "") [] portCfg = .ok portCfg ∧
    portMeta.requiredTag = "true" ∧
    blankDefault portMeta (.prim (.vnat 0)) = .ok (some (.vnat 0)) ∧
    isBlank (.prim (.vnat 0)) = true :=
  ⟨rfl, rfl, rfl, rfl⟩

/-- C2 (amended: for fields that declare no default literal): when a
processed field's value is still blank after the environment step and
the field declares no `default` tag but is tagged `required:"true"`,
the Binder fails with an error naming the field by its plain name, and
the failure aborts the whole pass at once: whatever later siblings
follow the field (and whatever structure the field itself has — the
error precedes any recursion into it), the result is that error,
provided the earlier siblings processed without error. -/
theorem required_blank_abort (env : EnvState) (pres : List String) (fs1 fs1' : GoFields)
    (m : FieldMeta) (v : GoValue) (r : Option PrimVal) (fs2 : GoFields)
    (hsib : processFields env pres fs1 = .ok fs1')
    (hacc : (m.canAddr && m.canInterface) = true)
    (henv : envStep env (envNamesFor m pres) v = .ok r)
    (hblank : isBlank (applyEnvResult r v) = true)
    (hdef : m.defaultTag = "")
    (hreq : m.requiredTag = "true") :
    processFields env pres (appendFields fs1 (.cons m v fs2)) =
      .error (m.name ++ " is required, but blank") := by
  have hfield : processField env pres m v = .error (m.name ++ " is required, but blank") := by
    rw [processField_eq]
    simp only [hacc, Bool.not_true, Bool.false_eq_true, if_false, henv]
    simp [blankDefault, hblank, hdef, hreq]
  refine processFields_append_error env pres _ fs1 fs1' _ hsib ?_
  simp [processFields_cons, hfield]

/-- Witness for `required_blank_abort`: the blank required `Password`
field (no default, empty environment) aborts the pass with its plain
name, with a later sibling `Later` present after it. -/
theorem required_blank_abort_witness :
    processFields (fun _ => "") []
      (appendFields .nil
        (.cons passMeta (.prim (.vstr ""))
          (.cons (plainMeta "Later") (.prim (.vstr "x")) .nil))) =
      .error "Password is required, but blank" :=
  required_blank_abort (fun _ => "") [] .nil .nil passMeta (.prim (.vstr "")) none
    (.cons (plainMeta "Later") (.prim (.vstr "x")) .nil) rfl rfl rfl rfl rfl rfl

/-- An `Except` is `isOk` exactly when it is an `ok`. -/
theorem except_isOk_exists {α : Type} (e : Except String α) : e.isOk = true ↔ ∃ a, e = .ok a := by
  cases e <;> simp [Except.isOk, Except.toBool]

/-- The scalar parser is determined by the shape of the target. -/
theorem parseInto_by_shape (u : GoValue) (s : String) :
    parseInto u s =
      (if shapeOf u = 0 then some (.vstr s)
       else if shapeOf u = 1 then (parseNat s).map .vnat
       else none) := by
  cases u with
  | prim p => cases p <;> rfl
  | strukt fs => rfl
  | slice es => rfl
  | ptr r => rfl

/-- A successful parse yields a scalar of the target's shape. -/
theorem parseInto_some_shape (v : GoValue) (s : String) (p : PrimVal)
    (h : parseInto v s = some p) : shapeOf (.prim p) = shapeOf v := by
  rw [parseInto_by_shape] at h
  split at h
  · cases h; simp_all [shapeOf]
  · split at h
    · cases hn : parseNat s with
      | none => rw [hn] at h; cases h
      | some n => rw [hn] at h; cases h; simp_all [shapeOf]
    · cases h

/-- The environment step leaves the field untouched exactly when every
candidate's environment value is empty — independently of the field. -/
theorem envStep_ok_none (env : EnvState) (ns : List String) (v : GoValue) :
    envStep env ns v = .ok none ↔ ∀ n ∈ ns, env n = "" := by
  induction ns with
  | nil => simp [envStep]
  | cons n rest ih =>
    by_cases h : env n = ""
    · simp [envStep, h, ih]
    · cases hp : parseInto v (env n) <;> simp [envStep, h, hp]

/-- The environment step is determined by the shape of the field. -/
theorem envStep_congr (env : EnvState) (ns : List String) (u v : GoValue)
    (h : shapeOf u = shapeOf v) : envStep env ns u = envStep env ns v := by
  induction ns with
  | nil => rfl
  | cons n rest ih =>
    by_cases he : env n = ""
    · simp [envStep, he, ih]
    · simp [envStep, he, parseInto_by_shape, h]

/-- A scalar assigned by the environment step has the field's shape. -/
theorem envStep_some_shape (env : EnvState) (ns : List String) (v : GoValue) (p : PrimVal)
    (h : envStep env ns v = .ok (some p)) : shapeOf (.prim p) = shapeOf v := by
  induction ns with
  | nil => cases h
  | cons n rest ih =>
    by_cases he : env n = ""
    · rw [envStep, if_neg (by simp [he])] at h
      exact ih h
    · rw [envStep, if_pos (by simp [he])] at h
      cases hp : parseInto v (env n) with
      | none => rw [hp] at h; cases h
      | some q => rw [hp] at h; cases h; exact parseInto_some_shape v (env n) p hp

/-- The value after the environment step keeps the field's shape. -/
theorem applyEnvResult_shape (env : EnvState) (ns : List String) (v : GoValue)
    (r : Option PrimVal) (h : envStep env ns v = .ok r) :
    shapeOf (applyEnvResult r v) = shapeOf v := by
  cases r with
  | none => rfl
  | some p => exact envStep_some_shape env ns v p h

/-- The default/required step cannot fail on a field whose default
literal parses. -/
theorem blankDefault_isOk (m : FieldMeta) (w : GoValue)
    (h1 : m.defaultTag ≠ "") (h2 : (parseInto w m.defaultTag).isSome = true) :
    (blankDefault m w).isOk = true := by
  by_cases hb : isBlank w = true
  · cases hp : parseInto w m.defaultTag with
    | none => rw [hp] at h2; cases h2
    | some p => simp [blankDefault, hb, h1, hp, Except.isOk, Except.toBool]
  · simp [blankDefault, hb, Except.isOk, Except.toBool]

/-- A scalar assigned by the default step has the field's shape. -/
theorem blankDefault_some_shape (m : FieldMeta) (w : GoValue) (p : PrimVal)
    (h : blankDefault m w = .ok (some p)) : shapeOf (.prim p) = shapeOf w := by
  by_cases hb : isBlank w = true
  · by_cases hd : m.defaultTag ≠ ""
    · cases hp : parseInto w m.defaultTag with
      | none => simp [blankDefault, hb, hd, hp] at h
      | some q =>
        simp [blankDefault, hb, hd, hp] at h
        exact h ▸ parseInto_some_shape w m.defaultTag q hp
    · by_cases hr : m.requiredTag == "true" <;> simp [blankDefault, hb, hd, hr] at h
  · simp [blankDefault, hb] at h

/-- Parsing a literal is determined by the shape of the target. -/
theorem parseInto_congr (u v : GoValue) (s : String) (h : shapeOf u = shapeOf v) :
    parseInto u s = parseInto v s := by
  rw [parseInto_by_shape, parseInto_by_shape, h]

/-- One field's processing succeeds whenever its environment step
succeeds, its default literal parses, and the recursion step (run only
when neither the environment nor the default assigned) succeeds. -/
theorem bindSafe_field_core (env : EnvState) (pres : List String) (m : FieldMeta) (v : GoValue)
    (hd : (m.canAddr && m.canInterface) = true →
      ((m.defaultTag ≠ "" : Bool) && (parseInto v m.defaultTag).isSome) = true)
    (he : (m.canAddr && m.canInterface) = true →
      (envStep env (envNamesFor m pres) v).isOk = true)
    (hrec : (m.canAddr && m.canInterface) = true →
      (derefRecurse env (childPre pres m) v).isOk = true) :
    (processField env pres m v).isOk = true := by
  rw [processField_eq]
  by_cases hacc : (m.canAddr && m.canInterface) = true
  · have hd' := hd hacc
    rw [Bool.and_eq_true] at hd'
    obtain ⟨hd1, hd2⟩ := hd'
    obtain ⟨r, hr⟩ := (except_isOk_exists _).mp (he hacc)
    have hshape : shapeOf (applyEnvResult r v) = shapeOf v :=
      applyEnvResult_shape env _ v r hr
    have hbd : (blankDefault m (applyEnvResult r v)).isOk = true := by
      apply blankDefault_isOk
      · simpa using hd1
      · rw [parseInto_congr _ v _ hshape]; exact hd2
    obtain ⟨d, hd4⟩ := (except_isOk_exists _).mp hbd
    cases d with
    | some p => simp [hacc, hr, hd4, Except.isOk, Except.toBool]
    | none =>
      cases r with
      | some p => simp [hacc, hr, hd4, Except.isOk, Except.toBool]
      | none =>
        have h2 := hrec hacc
        obtain ⟨w, hw⟩ := (except_isOk_exists _).mp h2
        simp [hacc, hr, hd4, hw, Except.isOk, Except.toBool]
  · simp [hacc, Except.isOk, Except.toBool]

mutual
/-- Totality of the field loop under satisfied defaults and a
well-formed environment. -/
theorem bindSafe_fields (env : EnvState) (pres : List String) :
    ∀ (fs : GoFields), safeFields fs = true → envOkFields env pres fs = true →
      (processFields env pres fs).isOk = true
  | .nil, _, _ => by simp [Except.isOk, Except.toBool]
  | .cons m v rest, hd, he => by
    rw [safeFields, Bool.and_eq_true] at hd
    rw [envOkFields, Bool.and_eq_true] at he
    have hf := bindSafe_field env pres m v
      (fun hacc => by simpa [hacc] using hd.1)
      (fun hacc => by simpa [hacc] using he.1)
    obtain ⟨w, hw⟩ := (except_isOk_exists _).mp hf
    have hr := bindSafe_fields env pres rest hd.2 he.2
    obtain ⟨rest', hrest⟩ := (except_isOk_exists _).mp hr
    simp [processFields_cons, hw, hrest, Except.isOk, Except.toBool]

/-- Totality of one field's processing under satisfied defaults and a
well-formed environment. -/
theorem bindSafe_field (env : EnvState) (pres : List String) (m : FieldMeta) :
    ∀ (v : GoValue),
      ((m.canAddr && m.canInterface) = true →
        ((m.defaultTag ≠ "" : Bool) && (parseInto v m.defaultTag).isSome && safeVal v) = true) →
      ((m.canAddr && m.canInterface) = true →
        ((envStep env (envNamesFor m pres) v).isOk && envOkVal env (childPre pres m) v) = true) →
      (processField env pres m v).isOk = true
  | .prim p, hd, he =>
    bindSafe_field_core env pres m (.prim p)
      (fun hacc => by have h := hd hacc; simp_all)
      (fun hacc => by have h := he hacc; simp_all)
      (fun hacc => by simp [Except.isOk, Except.toBool])
  | .strukt fs, hd, he =>
    bindSafe_field_core env pres m (.strukt fs)
      (fun hacc => by have h := hd hacc; simp_all)
      (fun hacc => by have h := he hacc; simp_all)
      (fun hacc => by
        have h1 := hd hacc
        have h2 := he hacc
        simp only [Bool.and_eq_true] at h1 h2
        have h := bindSafe_fields env (childPre pres m) fs
          (by simpa [safeVal] using h1.2) (by simpa [envOkVal] using h2.2)
        obtain ⟨fs', hfs⟩ := (except_isOk_exists _).mp h
        simp [derefRecurse_strukt, hfs, Except.isOk, Except.toBool])
  | .slice es, hd, he =>
    bindSafe_field_core env pres m (.slice es)
      (fun hacc => by have h := hd hacc; simp_all)
      (fun hacc => by have h := he hacc; simp_all)
      (fun hacc => by
        have h1 := hd hacc
        have h2 := he hacc
        simp only [Bool.and_eq_true] at h1 h2
        have h := bindSafe_slice env (childPre pres m) 0 es
          (by simpa [safeVal] using h1.2) (by simpa [envOkVal] using h2.2)
        obtain ⟨es', hes⟩ := (except_isOk_exists _).mp h
        simp [derefRecurse_slice, hes, Except.isOk, Except.toBool])
  | .ptr .null, hd, he =>
    bindSafe_field_core env pres m (.ptr .null)
      (fun hacc => by have h := hd hacc; simp_all)
      (fun hacc => by have h := he hacc; simp_all)
      (fun hacc => by simp [Except.isOk, Except.toBool])
  | .ptr (.ref x), hd, he =>
    bindSafe_field_core env pres m (.ptr (.ref x))
      (fun hacc => by have h := hd hacc; simp_all)
      (fun hacc => by have h := he hacc; simp_all)
      (fun hacc => by
        have h1 := hd hacc
        have h2 := he hacc
        simp only [Bool.and_eq_true] at h1 h2
        have h := bindSafe_deref env (childPre pres m) x
          (by simpa [safeVal] using h1.2) (by simpa [envOkVal] using h2.2)
        obtain ⟨y, hy⟩ := (except_isOk_exists _).mp h
        simp [derefRecurse_ptr_ref, hy, Except.isOk, Except.toBool])

/-- Totality of the dereference-and-recurse step under satisfied
defaults and a well-formed environment. -/
theorem bindSafe_deref (env : EnvState) (pres : List String) :
    ∀ (v : GoValue), safeVal v = true → envOkVal env pres v = true →
      (derefRecurse env pres v).isOk = true
  | .prim p, _, _ => by simp [Except.isOk, Except.toBool]
  | .strukt fs, hd, he => by
    have h := bindSafe_fields env pres fs (by simpa [safeVal] using hd)
      (by simpa [envOkVal] using he)
    obtain ⟨fs', hfs⟩ := (except_isOk_exists _).mp h
    simp [derefRecurse_strukt, hfs, Except.isOk, Except.toBool]
  | .slice es, hd, he => by
    have h := bindSafe_slice env pres 0 es (by simpa [safeVal] using hd)
      (by simpa [envOkVal] using he)
    obtain ⟨es', hes⟩ := (except_isOk_exists _).mp h
    simp [derefRecurse_slice, hes, Except.isOk, Except.toBool]
  | .ptr .null, _, _ => by simp [Except.isOk, Except.toBool]
  | .ptr (.ref x), hd, he => by
    have h := bindSafe_deref env pres x (by simpa [safeVal] using hd)
      (by simpa [envOkVal] using he)
    obtain ⟨y, hy⟩ := (except_isOk_exists _).mp h
    simp [derefRecurse_ptr_ref, hy, Except.isOk, Except.toBool]

/-- Totality of the slice loop under satisfied defaults and a
well-formed environment. -/
theorem bindSafe_slice (env : EnvState) (pres : List String) :
    ∀ (i : Nat) (es : GoValues), safeValues es = true → envOkValues env pres i es = true →
      (sliceElems env pres i es).isOk = true
  | _, .nil, _, _ => by simp [Except.isOk, Except.toBool]
  | i, .cons (.strukt fs) rest, hd, he => by
    rw [safeValues, Bool.and_eq_true] at hd
    rw [envOkValues, Bool.and_eq_true] at he
    have hr := bindSafe_slice env pres (i + 1) rest hd.2 he.2
    obtain ⟨rest', hrest⟩ := (except_isOk_exists _).mp hr
    have h := bindSafe_fields env (pres ++ [toString i]) fs
      (by simpa [safeVal] using hd.1) (by simpa [envOkVal] using he.1)
    obtain ⟨fs', hfs⟩ := (except_isOk_exists _).mp h
    simp [sliceElems_cons, indirect1, processTags_strukt, hfs, hrest,
      Except.isOk, Except.toBool]
  | i, .cons (.ptr (.ref (.strukt fs))) rest, hd, he => by
    rw [safeValues, Bool.and_eq_true] at hd
    rw [envOkValues, Bool.and_eq_true] at he
    have hr := bindSafe_slice env pres (i + 1) rest hd.2 he.2
    obtain ⟨rest', hrest⟩ := (except_isOk_exists _).mp hr
    have h := bindSafe_fields env (pres ++ [toString i]) fs
      (by simpa [safeVal] using hd.1) (by simpa [envOkVal] using he.1)
    obtain ⟨fs', hfs⟩ := (except_isOk_exists _).mp h
    simp [sliceElems_cons, indirect1, processTags_ptr_ref, processTags_strukt,
      hfs, hrest, Except.isOk, Except.toBool]
  | i, .cons (.prim p) rest, hd, he => by
    rw [safeValues, Bool.and_eq_true] at hd
    rw [envOkValues, Bool.and_eq_true] at he
    have hr := bindSafe_slice env pres (i + 1) rest hd.2 he.2
    obtain ⟨rest', hrest⟩ := (except_isOk_exists _).mp hr
    simp [sliceElems_cons, indirect1, hrest, Except.isOk, Except.toBool]
  | i, .cons (.slice es2) rest, hd, he => by
    rw [safeValues, Bool.and_eq_true] at hd
    rw [envOkValues, Bool.and_eq_true] at he
    have hr := bindSafe_slice env pres (i + 1) rest hd.2 he.2
    obtain ⟨rest', hrest⟩ := (except_isOk_exists _).mp hr
    simp [sliceElems_cons, indirect1, hrest, Except.isOk, Except.toBool]
  | i, .cons (.ptr .null) rest, hd, he => by
    rw [safeValues, Bool.and_eq_true] at hd
    rw [envOkValues, Bool.and_eq_true] at he
    have hr := bindSafe_slice env pres (i + 1) rest hd.2 he.2
    obtain ⟨rest', hrest⟩ := (except_isOk_exists _).mp hr
    simp [sliceElems_cons, indirect1, hrest, Except.isOk, Except.toBool]
  | i, .cons (.ptr (.ref (.prim p))) rest, hd, he => by
    rw [safeValues, Bool.and_eq_true] at hd
    rw [envOkValues, Bool.and_eq_true] at he
    have hr := bindSafe_slice env pres (i + 1) rest hd.2 he.2
    obtain ⟨rest', hrest⟩ := (except_isOk_exists _).mp hr
    simp [sliceElems_cons, indirect1, hrest, Except.isOk, Except.toBool]
  | i, .cons (.ptr (.ref (.slice es2))) rest, hd, he => by
    rw [safeValues, Bool.and_eq_true] at hd
    rw [envOkValues, Bool.and_eq_true] at he
    have hr := bindSafe_slice env pres (i + 1) rest hd.2 he.2
    obtain ⟨rest', hrest⟩ := (except_isOk_exists _).mp hr
    simp [sliceElems_cons, indirect1, hrest, Except.isOk, Except.toBool]
  | i, .cons (.ptr (.ref (.ptr r2))) rest, hd, he => by
    rw [safeValues, Bool.and_eq_true] at hd
    rw [envOkValues, Bool.and_eq_true] at he
    have hr := bindSafe_slice env pres (i + 1) rest hd.2 he.2
    obtain ⟨rest', hrest⟩ := (except_isOk_exists _).mp hr
    simp [sliceElems_cons, indirect1, hrest, Except.isOk, Except.toBool]
end

/-- Counterexample to C3 as stated: the single-field structure whose
`uint` field `Port` carries the satisfied default `default:"5"` and no
required tag still fails to bind under the environment `PORT=abc`,
because the environment value does not parse into the field's type —
success does not hold for every state of the environment. -/
theorem satisfied_defaults_env_failure_cex :
    safeFields (.cons port5Meta (.prim (.vnat 0)) .nil) = true ∧
    (processTags portAbcEnv [] port5Cfg).isOk = false :=
  ⟨rfl, rfl⟩

/-- C3 (amended: for environment states that are well formed for the
structure, i.e. every consulted environment value is either unset or
parses into its field's type): binding a structure whose every
processed field declares a default literal that parses into the field's
type — hence no field is required without a default — always succeeds. -/
theorem satisfied_defaults_bind_ok (env : EnvState) (pres : List String) (fs : GoFields)
    (hd : safeFields fs = true) (he : envOkFields env pres fs = true) :
    (processTags env pres (.strukt fs)).isOk = true := by
  have h := bindSafe_fields env pres fs hd he
  obtain ⟨fs', hfs⟩ := (except_isOk_exists _).mp h
  simp [processTags_strukt, hfs, Except.isOk, Except.toBool]

/-- Witness for `satisfied_defaults_bind_ok`: the defaulted `Port`
structure binds successfully under the empty environment. -/
theorem satisfied_defaults_bind_ok_witness :
    (processTags (fun _ => "") [] port5Cfg).isOk = true :=
  satisfied_defaults_bind_ok (fun _ => "") [] (.cons port5Meta (.prim (.vnat 0)) .nil) rfl rfl

/-- The default/required step is the identity on non-blank fields. -/
theorem blankDefault_not_blank (m : FieldMeta) (w : GoValue) (h : isBlank w = false) :
    blankDefault m w = .ok none := by
  simp [blankDefault, h]

/-- A second run of one field's processing on its own (non-blank,
recursively non-zero) output reproduces that output, given that the
recursion step is idempotent on the dereferenced value. -/
theorem field_idem_core (env : EnvState) (pres : List String) (m : FieldMeta) (v w : GoValue)
    (h : processField env pres m v = .ok w)
    (hz : (!isBlank w && noZeroVal w) = true)
    (hrec : ∀ u, derefRecurse env (childPre pres m) v = .ok u → noZeroVal u = true →
      derefRecurse env (childPre pres m) u = .ok u) :
    processField env pres m w = .ok w := by
  rw [Bool.and_eq_true] at hz
  have hwb : isBlank w = false := by simpa using hz.1
  have hzv : noZeroVal w = true := hz.2
  rw [processField_eq] at h ⊢
  by_cases hacc : (m.canAddr && m.canInterface) = true
  · simp only [hacc, Bool.not_true, Bool.false_eq_true, if_false] at h ⊢
    cases hr : envStep env (envNamesFor m pres) v with
    | error e => simp only [hr] at h; simp at h
    | ok r =>
      simp only [hr] at h
      cases hbd : blankDefault m (applyEnvResult r v) with
      | error e => simp only [hbd] at h; simp at h
      | ok d =>
        simp only [hbd] at h
        cases d with
        | some p =>
          injection h with h'
          subst h'
          cases r with
          | some q =>
            have hs1 : shapeOf (.prim q) = shapeOf v := envStep_some_shape env _ v q hr
            have hs2 : shapeOf (GoValue.prim p) = shapeOf (GoValue.prim q) := by
              have h2 := blankDefault_some_shape m (applyEnvResult (some q) v) p hbd
              simpa [applyEnvResult] using h2
            have henv2 : envStep env (envNamesFor m pres) (.prim p) = .ok (some q) := by
              rw [envStep_congr env (envNamesFor m pres) (.prim p) v (hs2.trans hs1)]
              exact hr
            have hbd' : blankDefault m (.prim q) = .ok (some p) := by
              simpa [applyEnvResult] using hbd
            simp only [henv2, applyEnvResult, hbd']
          | none =>
            have hnone : envStep env (envNamesFor m pres) (.prim p) = .ok none := by
              rw [envStep_ok_none] at hr ⊢; exact hr
            have hbd2 : blankDefault m (.prim p) = .ok none :=
              blankDefault_not_blank m _ hwb
            simp only [hnone, applyEnvResult, hbd2, derefRecurse_prim]
        | none =>
          cases r with
          | some p =>
            injection h with h'
            subst h'
            have hs1 : shapeOf (.prim p) = shapeOf v := envStep_some_shape env _ v p hr
            have henv2 : envStep env (envNamesFor m pres) (.prim p) = .ok (some p) := by
              rw [envStep_congr env (envNamesFor m pres) (.prim p) v hs1]
              exact hr
            have hbd' : blankDefault m (.prim p) = .ok none := by
              simpa [applyEnvResult] using hbd
            simp only [henv2, applyEnvResult, hbd']
          | none =>
            simp only [applyEnvResult] at h
            have hnone : envStep env (envNamesFor m pres) w = .ok none := by
              rw [envStep_ok_none] at hr ⊢; exact hr
            have hbdw : blankDefault m w = .ok none :=
              blankDefault_not_blank m w hwb
            simp only [hnone, applyEnvResult, hbdw]
            exact hrec w h hzv
  · have hf : (m.canAddr && m.canInterface) = false := by
      simpa using hacc
    simp only [hf, Bool.not_false, if_true] at h ⊢

mutual
/-- A second run of the field loop on its own non-zero output
reproduces it. -/
theorem fields_idem (env : EnvState) (pres : List String) :
    ∀ (fs fs' : GoFields), processFields env pres fs = .ok fs' → noZeroFields fs' = true →
      processFields env pres fs' = .ok fs'
  | .nil, fs', h, _ => by
    rw [processFields_nil] at h
    injection h with h'
    subst h'
    rfl
  | .cons m v rest, fs', h, hz => by
    simp only [processFields_cons] at h
    cases h0 : processField env pres m v with
    | error e => simp only [h0] at h; exact Except.noConfusion h
    | ok w =>
      simp only [h0] at h
      cases h1 : processFields env pres rest with
      | error e => simp only [h1] at h; exact Except.noConfusion h
      | ok rest' =>
        simp only [h1] at h
        injection h with h'
        subst h'
        rw [noZeroFields, Bool.and_eq_true] at hz
        have hw := field_idem env pres m v w h0 hz.1
        have hrest := fields_idem env pres rest rest' h1 hz.2
        simp [processFields_cons, hw, hrest]
termination_by fs fs' h hz => 2 * sizeOf fs + 1

/-- A second run of one field's processing on its own non-blank,
recursively non-zero output reproduces it. -/
theorem field_idem (env : EnvState) (pres : List String) (m : FieldMeta) :
    ∀ (v w : GoValue), processField env pres m v = .ok w →
      (!isBlank w && noZeroVal w) = true → processField env pres m w = .ok w
  | .prim p, w, h, hz =>
    field_idem_core env pres m (.prim p) w h hz (fun u hu _ => by
      rw [derefRecurse_prim] at hu
      injection hu with h'
      subst h'
      rfl)
  | .strukt fs, w, h, hz =>
    field_idem_core env pres m (.strukt fs) w h hz (fun u hu hzu => by
      cases h1 : processFields env (childPre pres m) fs with
      | error e => simp only [derefRecurse_strukt, h1] at hu; exact Except.noConfusion hu
      | ok fs₁ =>
        simp only [derefRecurse_strukt, h1] at hu
        injection hu with h'
        subst h'
        have h2 := fields_idem env (childPre pres m) fs fs₁ h1 (by simpa [noZeroVal] using hzu)
        simp [derefRecurse_strukt, h2])
  | .slice es, w, h, hz =>
    field_idem_core env pres m (.slice es) w h hz (fun u hu hzu => by
      cases h1 : sliceElems env (childPre pres m) 0 es with
      | error e => simp only [derefRecurse_slice, h1] at hu; exact Except.noConfusion hu
      | ok es₁ =>
        simp only [derefRecurse_slice, h1] at hu
        injection hu with h'
        subst h'
        have h2 := slice_idem env (childPre pres m) 0 es es₁ h1 (by simpa [noZeroVal] using hzu)
        simp [derefRecurse_slice, h2])
  | .ptr .null, w, h, hz =>
    field_idem_core env pres m (.ptr .null) w h hz (fun u hu _ => by
      rw [derefRecurse_ptr_null] at hu
      injection hu with h'
      subst h'
      rfl)
  | .ptr (.ref x), w, h, hz =>
    field_idem_core env pres m (.ptr (.ref x)) w h hz (fun u hu hzu => by
      cases h1 : derefRecurse env (childPre pres m) x with
      | error e => simp only [derefRecurse_ptr_ref, h1] at hu; exact Except.noConfusion hu
      | ok y =>
        simp only [derefRecurse_ptr_ref, h1] at hu
        injection hu with h'
        subst h'
        have h2 := deref_idem env (childPre pres m) x y h1 (by simpa [noZeroVal] using hzu)
        simp [derefRecurse_ptr_ref, h2])
termination_by v w h hz => 2 * sizeOf v + 1

/-- A second run of the dereference-and-recurse step on its own
recursively non-zero output reproduces it. -/
theorem deref_idem (env : EnvState) (pres : List String) :
    ∀ (v w : GoValue), derefRecurse env pres v = .ok w → noZeroVal w = true →
      derefRecurse env pres w = .ok w
  | .prim p, w, h, _ => by
    rw [derefRecurse_prim] at h
    injection h with h'
    subst h'
    rfl
  | .ptr .null, w, h, _ => by
    rw [derefRecurse_ptr_null] at h
    injection h with h'
    subst h'
    rfl
  | .strukt fs, w, h, hz => by
    cases h1 : processFields env pres fs with
    | error e => simp only [derefRecurse_strukt, h1] at h; exact Except.noConfusion h
    | ok fs₁ =>
      simp only [derefRecurse_strukt, h1] at h
      injection h with h'
      subst h'
      have h2 := fields_idem env pres fs fs₁ h1 (by simpa [noZeroVal] using hz)
      simp [derefRecurse_strukt, h2]
  | .slice es, w, h, hz => by
    cases h1 : sliceElems env pres 0 es with
    | error e => simp only [derefRecurse_slice, h1] at h; exact Except.noConfusion h
    | ok es₁ =>
      simp only [derefRecurse_slice, h1] at h
      injection h with h'
      subst h'
      have h2 := slice_idem env pres 0 es es₁ h1 (by simpa [noZeroVal] using hz)
      simp [derefRecurse_slice, h2]
  | .ptr (.ref x), w, h, hz => by
    cases h1 : derefRecurse env pres x with
    | error e => simp only [derefRecurse_ptr_ref, h1] at h; exact Except.noConfusion h
    | ok y =>
      simp only [derefRecurse_ptr_ref, h1] at h
      injection h with h'
      subst h'
      have h2 := deref_idem env pres x y h1 (by simpa [noZeroVal] using hz)
      simp [derefRecurse_ptr_ref, h2]
termination_by v w h hz => 2 * sizeOf v

/-- A second run of the slice loop on its own recursively non-zero
output reproduces it. -/
theorem slice_idem (env : EnvState) (pres : List String) :
    ∀ (i : Nat) (es es' : GoValues), sliceElems env pres i es = .ok es' →
      noZeroValues es' = true → sliceElems env pres i es' = .ok es'
  | _, .nil, es', h, _ => by
    rw [sliceElems_nil] at h
    injection h with h'
    subst h'
    rfl
  | i, .cons (.strukt fs) rest, es', h, hz => by
    cases h1 : processFields env (pres ++ [toString i]) fs with
    | error e =>
      simp only [sliceElems_cons, indirect1, processTags_strukt, h1] at h
      exact Except.noConfusion h
    | ok fs₁ =>
      cases h2 : sliceElems env pres (i + 1) rest with
      | error e =>
        simp only [sliceElems_cons, indirect1, processTags_strukt, h1, h2] at h
        exact Except.noConfusion h
      | ok rest' =>
        simp only [sliceElems_cons, indirect1, processTags_strukt, h1, h2] at h
        injection h with h'
        subst h'
        rw [noZeroValues, Bool.and_eq_true] at hz
        have hf := fields_idem env (pres ++ [toString i]) fs fs₁ h1 (by simpa [noZeroVal] using hz.1)
        have hrest := slice_idem env pres (i + 1) rest rest' h2 hz.2
        simp [sliceElems_cons, indirect1, processTags_strukt, hf, hrest]
  | i, .cons (.ptr (.ref (.strukt fs))) rest, es', h, hz => by
    cases h1 : processFields env (pres ++ [toString i]) fs with
    | error e =>
      simp only [sliceElems_cons, indirect1, processTags_ptr_ref, processTags_strukt, h1] at h
      exact Except.noConfusion h
    | ok fs₁ =>
      cases h2 : sliceElems env pres (i + 1) rest with
      | error e =>
        simp only [sliceElems_cons, indirect1, processTags_ptr_ref, processTags_strukt,
          h1, h2] at h
        exact Except.noConfusion h
      | ok rest' =>
        simp only [sliceElems_cons, indirect1, processTags_ptr_ref, processTags_strukt,
          h1, h2] at h
        injection h with h'
        subst h'
        rw [noZeroValues, Bool.and_eq_true] at hz
        have hf := fields_idem env (pres ++ [toString i]) fs fs₁ h1 (by simpa [noZeroVal] using hz.1)
        have hrest := slice_idem env pres (i + 1) rest rest' h2 hz.2
        simp [sliceElems_cons, indirect1, processTags_ptr_ref, processTags_strukt, hf, hrest]
  | i, .cons (.prim p) rest, es', h, hz => by
    cases h2 : sliceElems env pres (i + 1) rest with
    | error e => simp only [sliceElems_cons, indirect1, h2] at h; exact Except.noConfusion h
    | ok rest' =>
      simp only [sliceElems_cons, indirect1, h2] at h
      injection h with h'
      subst h'
      rw [noZeroValues, Bool.and_eq_true] at hz
      have hrest := slice_idem env pres (i + 1) rest rest' h2 hz.2
      simp [sliceElems_cons, indirect1, hrest]
  | i, .cons (.slice es2) rest, es', h, hz => by
    cases h2 : sliceElems env pres (i + 1) rest with
    | error e => simp only [sliceElems_cons, indirect1, h2] at h; exact Except.noConfusion h
    | ok rest' =>
      simp only [sliceElems_cons, indirect1, h2] at h
      injection h with h'
      subst h'
      rw [noZeroValues, Bool.and_eq_true] at hz
      have hrest := slice_idem env pres (i + 1) rest rest' h2 hz.2
      simp [sliceElems_cons, indirect1, hrest]
  | i, .cons (.ptr .null) rest, es', h, hz => by
    cases h2 : sliceElems env pres (i + 1) rest with
    | error e => simp only [sliceElems_cons, indirect1, h2] at h; exact Except.noConfusion h
    | ok rest' =>
      simp only [sliceElems_cons, indirect1, h2] at h
      injection h with h'
      subst h'
      rw [noZeroValues, Bool.and_eq_true] at hz
      have hrest := slice_idem env pres (i + 1) rest rest' h2 hz.2
      simp [sliceElems_cons, indirect1, hrest]
  | i, .cons (.ptr (.ref (.prim p))) rest, es', h, hz => by
    cases h2 : sliceElems env pres (i + 1) rest with
    | error e => simp only [sliceElems_cons, indirect1, h2] at h; exact Except.noConfusion h
    | ok rest' =>
      simp only [sliceElems_cons, indirect1, h2] at h
      injection h with h'
      subst h'
      rw [noZeroValues, Bool.and_eq_true] at hz
      have hrest := slice_idem env pres (i + 1) rest rest' h2 hz.2
      simp [sliceElems_cons, indirect1, hrest]
  | i, .cons (.ptr (.ref (.slice es2))) rest, es', h, hz => by
    cases h2 : sliceElems env pres (i + 1) rest with
    | error e => simp only [sliceElems_cons, indirect1, h2] at h; exact Except.noConfusion h
    | ok rest' =>
      simp only [sliceElems_cons, indirect1, h2] at h
      injection h with h'
      subst h'
      rw [noZeroValues, Bool.and_eq_true] at hz
      have hrest := slice_idem env pres (i + 1) rest rest' h2 hz.2
      simp [sliceElems_cons, indirect1, hrest]
  | i, .cons (.ptr (.ref (.ptr r2))) rest, es', h, hz => by
    cases h2 : sliceElems env pres (i + 1) rest with
    | error e => simp only [sliceElems_cons, indirect1, h2] at h; exact Except.noConfusion h
    | ok rest' =>
      simp only [sliceElems_cons, indirect1, h2] at h
      injection h with h'
      subst h'
      rw [noZeroValues, Bool.and_eq_true] at hz
      have hrest := slice_idem env pres (i + 1) rest rest' h2 hz.2
      simp [sliceElems_cons, indirect1, hrest]
termination_by i es es' h hz => 2 * sizeOf es + 1
end

/-- A second Binder pass on its own recursively non-zero output
reproduces it (top-level entry, dereferencing the target). -/
theorem tags_idem (env : EnvState) (pres : List String) :
    ∀ (v v' : GoValue), processTags env pres v = .ok v' → noZeroVal v' = true →
      processTags env pres v' = .ok v'
  | .strukt fs, v', h, hz => by
    cases h1 : processFields env pres fs with
    | error e => simp only [processTags_strukt, h1] at h; exact Except.noConfusion h
    | ok fs₁ =>
      simp only [processTags_strukt, h1] at h
      injection h with h'
      subst h'
      have h2 := fields_idem env pres fs fs₁ h1 (by simpa [noZeroVal] using hz)
      simp [processTags_strukt, h2]
  | .ptr (.ref x), v', h, hz => by
    cases h1 : processTags env pres x with
    | error e => simp only [processTags_ptr_ref, h1] at h; exact Except.noConfusion h
    | ok y =>
      simp only [processTags_ptr_ref, h1] at h
      injection h with h'
      subst h'
      have h2 := tags_idem env pres x y h1 (by simpa [noZeroVal] using hz)
      simp [processTags_ptr_ref, h2]
  | .prim p, v', h, _ => by
    simp only [processTags_prim] at h
    exact Except.noConfusion h
  | .slice es, v', h, _ => by
    simp only [processTags_slice] at h
    exact Except.noConfusion h
  | .ptr .null, v', h, _ => by
    simp only [processTags_ptr_null] at h
    exact Except.noConfusion h

/-- Counterexample to C7 as stated: the structure `innerCfg` has no
zero-valued field (its nested `Inner.A` holds 5) and its first Binder
pass under `INNER_A=0` succeeds, zeroing `A` and thereby blanking the
whole nested struct; the second pass then tries `Inner`'s default
literal `[`, which does not parse, and fails instead of leaving the
structure unchanged. -/
theorem bind_second_pass_failure_cex :
    noZeroVal innerCfg = true ∧
    processTags innerZeroEnv [] innerCfg = .ok innerCfgAfter ∧
    (processTags innerZeroEnv [] innerCfgAfter).isOk = false :=
  ⟨rfl, rfl, rfl⟩

/-- C7 (amended: additionally requiring that the structure produced by
the first call still has no zero-valued field): for a structure with no
zero-valued fields and a fixed environment, a second Binder call on the
result of a first successful call succeeds and leaves every field
unchanged — defaults only apply to zero-valued fields and re-applied
environment values reproduce the same values. -/
theorem bind_idempotent (env : EnvState) (pres : List String) (v v' : GoValue)
    (h0 : noZeroVal v = true)
    (h : processTags env pres v = .ok v')
    (hz : noZeroVal v' = true) :
    processTags env pres v' = .ok v' :=
  tags_idem env pres v v' h hz

/-- Witness for `bind_idempotent`: a fully populated one-field
structure whose field is overridden from the environment; the second
pass reproduces the first pass's output. -/
theorem bind_idempotent_witness :
    processTags nameEnv [] (.strukt (.cons nameMeta (.prim (.vstr "x")) .nil)) =
      .ok (.strukt (.cons nameMeta (.prim (.vstr "iris")) .nil)) ∧
    processTags nameEnv [] (.strukt (.cons nameMeta (.prim (.vstr "iris")) .nil)) =
      .ok (.strukt (.cons nameMeta (.prim (.vstr "iris")) .nil)) :=
  ⟨rfl,
   bind_idempotent nameEnv []
     (.strukt (.cons nameMeta (.prim (.vstr "x")) .nil))
     (.strukt (.cons nameMeta (.prim (.vstr "iris")) .nil)) rfl rfl rfl⟩
